import Mathlib

/-!
Verification of the users API module (token lifecycle, token listing scope,
owner search, and the self-edit permission bypass) of the InvenTree users app.

The embedding models the database table of API tokens as a list of records,
and each endpoint handler as a pure function over that list.  Parts of the
repository that are referenced by the handlers but whose code is not part of
the users API module (the ApiToken model helpers, the serializers, the
permission classes) are modelled from the specification and marked as such in
their doc comments.
-/

namespace UsersApi

/-- A persisted API token record (the ApiToken table row). -/
structure ApiToken where
  tid : Nat
  user : Nat
  name : String
  key : String
  created : Nat
  expiry : Nat
  revoked : Bool
  metadata : List (String × String)
  deriving Repr, DecidableEq

/-- Strip leading and trailing whitespace from a character list (the
semantics of the strip method on strings). -/
def trimChars (l : List Char) : List Char :=
  ((l.dropWhile Char.isWhitespace).reverse.dropWhile Char.isWhitespace).reverse

/-- Strip leading and trailing whitespace from a string. -/
def strTrim (s : String) : String := String.mk (trimChars s.data)

/-- Lowercase every character of a string (the semantics of the lower method
on strings). -/
def strLower (s : String) : String := String.mk (s.data.map Char.toLower)

/-- Split a character list on every occurrence of a separator character;
consecutive separators yield empty pieces and the empty list yields one empty
piece (the semantics of the one-argument split method on strings). -/
def splitChar (sep : Char) : List Char → List (List Char)
  | [] => [[]]
  | c :: rest =>
    let r := splitChar sep rest
    if c = sep then [] :: r
    else
      match r with
      | [] => [[c]]
      | h :: t => (c :: h) :: t

/-- Split a string on single spaces. -/
def strSplitOnSpace (s : String) : List String :=
  (splitChar ' ' s.data).map String.mk

/-- Modelled from the spec: ApiToken.sanitize_name lives in the users models
module, which is not part of the API module under verification.  The spec
says: trim, normalize to a safe identifier charset, empty gives a default
name.  Spaces become dashes; characters outside alphanumerics, dash and
underscore are dropped. -/
def sanitize_name (s : String) : String :=
  let t := String.mk
    (((trimChars s.data).map (fun c => if c = ' ' then '-' else c)).filter
      (fun c => c.isAlphanum || c = '-' || c = '_'))
  if t = "" then "auth-token" else t

/-- The reuse-lookup predicate of GetAuthToken.get: the token belongs to the
user, carries the requested (sanitized) name, is not revoked, and its expiry
date is today or later. -/
def tokenMatches (uid : Nat) (nm : String) (today : Nat) (t : ApiToken) : Bool :=
  t.user == uid && t.name == nm && !t.revoked && decide (today ≤ t.expiry)

/-- The reuse lookup of GetAuthToken.get: filter on (user, name, revoked =
false, expiry at or after today) and take the first record. -/
def findActive (st : List ApiToken) (uid : Nat) (nm : String) (today : Nat) :
    Option ApiToken :=
  (st.filter (tokenMatches uid nm today)).head?

/-- Modelled from the spec: the metadata merge of set_metadata (ApiToken
model, not part of the API module).  New values overwrite by key, untouched
keys persist. -/
def setKV (m : List (String × String)) (k v : String) : List (String × String) :=
  if m.any (fun p => p.1 == k) then
    m.map (fun p => if p.1 == k then (k, v) else p)
  else m ++ [(k, v)]

/-- Apply a sequence of set_metadata calls to a token.  Each call carries a
success flag: per the spec, a metadata-merge failure is logged and swallowed,
leaving the token unchanged, so a failed call only appends a log line. -/
def applyMeta : ApiToken → List String → List ((String × String) × Bool) →
    ApiToken × List String
  | t, log, [] => (t, log)
  | t, log, ((k, v), ok) :: rest =>
    if ok then applyMeta { t with metadata := setKV t.metadata k v } log rest
    else applyMeta t (log ++ ["metadata merge failed: " ++ k]) rest

/-- A primary key not used by any record in the table. -/
def freshId (st : List ApiToken) : Nat :=
  (st.map (fun t => t.tid)).foldr max 0 + 1

/-- Modelled from the spec: the key generator of the ApiToken model (not part
of the API module) produces a freshly generated, cryptographically random
secret key.  Freshness is modelled by producing a key strictly longer than
every key in the table, hence distinct from all of them. -/
def freshKey (st : List ApiToken) : String :=
  String.mk (List.replicate ((st.map (fun t => t.key.length)).foldr max 0 + 1) 'k')

/-- Replace the record carrying the given primary key (saving a mutated
instance back to the table). -/
def updateTok (st : List ApiToken) (tid : Nat) (t2 : ApiToken) : List ApiToken :=
  st.map (fun u => if u.tid == tid then t2 else u)

/-- The body of the issuance response of GetAuthToken.get: token key, name
and expiry. -/
structure IssueResponse where
  token : String
  name : String
  expiry : Nat
  deriving Repr, DecidableEq

/-- Result of one call to GetAuthToken.get: the new table state, the response
body, and the log lines emitted. -/
structure IssueResult where
  state : List ApiToken
  resp : IssueResponse
  log : List String
  deriving Repr, DecidableEq

/-- The record created by ApiToken.objects.create: a fresh primary key, a
freshly generated secret key, the default expiry horizon supplied by the
model layer, and the revoked flag cleared. -/
def newToken (st : List ApiToken) (uid : Nat) (nm : String)
    (today horizon : Nat) : ApiToken :=
  { tid := freshId st, user := uid, name := nm, key := freshKey st
    created := today, expiry := today + horizon, revoked := false
    metadata := [] }

/-- GetAuthToken.get for an authenticated user: sanitize the requested name,
look up an existing unrevoked token that has not expired; when none matches,
create a fresh record (logging the creation); then record the request
metadata on the token and answer with its key, name and expiry.  The default
expiry horizon of a created token is supplied by the model layer and is taken
here as the parameter `horizon`. -/
def issue (st : List ApiToken) (uid : Nat) (rawName : String)
    (today horizon : Nat) (meta : List ((String × String) × Bool)) :
    IssueResult :=
  match findActive st uid (sanitize_name rawName) today with
  | some t =>
    let r := applyMeta t [] meta
    { state := updateTok st t.tid r.1
      resp := ⟨r.1.key, r.1.name, r.1.expiry⟩
      log := r.2 }
  | none =>
    let r := applyMeta (newToken st uid (sanitize_name rawName) today horizon)
      ["created new API token"] meta
    { state := st ++ [r.1]
      resp := ⟨r.1.key, r.1.name, r.1.expiry⟩
      log := r.2 }

/-- TokenDetailView.perform_destroy: set the revoked flag of the targeted
record and save it; the record is not deleted. -/
def revoke (st : List ApiToken) (tid : Nat) : List ApiToken :=
  st.map (fun t => if t.tid == tid then { t with revoked := true } else t)

/-- The actor issuing a token-list or token-detail request. -/
structure Requester where
  uid : Nat
  is_superuser : Bool
  deriving Repr, DecidableEq

/-- Python truthiness of the all_users query parameter as read by
request.query_params.get with default False: an absent parameter is falsy,
a present value is truthy exactly when it is a non-empty string. -/
def paramTruthy : Option String → Bool
  | none => false
  | some s => s != ""

/-- TokenMixin.get_queryset: a superuser passing a truthy all_users parameter
sees every token; everyone else sees only their own tokens. -/
def tokenQueryset (req : Requester) (all_users : Option String)
    (st : List ApiToken) : List ApiToken :=
  if req.is_superuser && paramTruthy all_users then st
  else st.filter (fun t => t.user == req.uid)

/-- The type tag of an owner record: an owner is either a user or a group. -/
inductive OwnerType
  | user
  | group
  deriving Repr, DecidableEq

/-- An owner record of the owner union.  The resolved display name (the
Owner model's name method, which lives outside the API module) is carried as
a field. -/
structure Owner where
  owner_type : OwnerType
  owner_id : Nat
  name : String
  deriving Repr, DecidableEq

/-- A row of the user table, as consulted by the is_active filter of the
owner search. -/
structure UserRec where
  pk : Nat
  is_active : Bool
  deriving Repr, DecidableEq

/-- Boolean substring test: the needle occurs contiguously inside the
haystack. -/
def strHasSub (hay needle : String) : Bool :=
  decide (needle.data <:+: hay.data)

/-- The inner loop of OwnerList.filter_queryset: walk the query entries and
fail on the first entry that is not a substring of the name (the loop breaks
as soon as a match fails). -/
def searchLoop (name : String) : List String → Bool
  | [] => true
  | entry :: rest =>
    if strHasSub name entry then searchLoop name rest else false

/-- The per-owner keep decision of OwnerList.filter_queryset: lower and strip
the owner's resolved name, require every entry of the lowered stripped query
split on spaces to occur in it (only when the query is non-empty), and, when
an is_active value was supplied, skip user-typed owners whose id is not among
the users carrying that active flag. -/
def keepOwner (users : List UserRec) (search_term : String)
    (is_active : Option Bool) (o : Owner) : Bool :=
  let name := strTrim (strLower o.name)
  let search_match :=
    if search_term != "" then
      searchLoop name (strSplitOnSpace (strTrim search_term))
    else true
  if !search_match then false
  else
    match is_active with
    | none => true
    | some b =>
      let matching_user_ids := (users.filter (fun u => u.is_active == b)).map
        (fun u => u.pk)
      if o.owner_type == OwnerType.user &&
          !(matching_user_ids.contains o.owner_id) then false
      else true

/-- OwnerList.filter_queryset: lower the raw search parameter and keep
exactly the owners accepted by the per-owner decision, in order. -/
def filter_queryset (users : List UserRec) (search : String)
    (is_active : Option Bool) (qs : List Owner) : List Owner :=
  let search_term := strLower search
  qs.filter (keepOwner users search_term is_active)

/-- The entries the owner search requires to occur in the owner's name: none
when the lowered query is empty, otherwise the lowered stripped query split
on spaces. -/
def queryTokens (search : String) : List String :=
  if strLower search = "" then []
  else strSplitOnSpace (strTrim (strLower search))

/-- A rendered response field value. -/
inductive FieldVal
  | s (v : String)
  | n (v : Nat)
  | b (v : Bool)
  deriving Repr, DecidableEq

/-- Modelled from the spec: ApiTokenSerializer (the serializers module, not
part of the API module) renders a token record with the secret key redacted;
the spec lists the exposed fields as id, name, created, expiry, revoked and
user. -/
def serializeToken (t : ApiToken) : List (String × FieldVal) :=
  [("id", FieldVal.n t.tid), ("name", FieldVal.s t.name),
   ("created", FieldVal.n t.created), ("expiry", FieldVal.n t.expiry),
   ("revoked", FieldVal.b t.revoked), ("user", FieldVal.n t.user)]

/-- TokenListView.get: render every token of the requester's queryset. -/
def listTokens (req : Requester) (all_users : Option String)
    (st : List ApiToken) : List (List (String × FieldVal)) :=
  (tokenQueryset req all_users st).map serializeToken

/-- TokenDetailView retrieval: render the token of the requester's queryset
carrying the requested primary key, when it exists. -/
def retrieveToken (req : Requester) (all_users : Option String)
    (st : List ApiToken) (tid : Nat) : Option (List (String × FieldVal)) :=
  (((tokenQueryset req all_users st).filter (fun t => t.tid == tid)).head?).map
    serializeToken

/-- The response body of GetAuthToken.get, as a rendered field list: token
key, name and expiry. -/
def issueRespFields (r : IssueResponse) : List (String × FieldVal) :=
  [("token", FieldVal.s r.token), ("name", FieldVal.s r.name),
   ("expiry", FieldVal.n r.expiry)]

/-- TokenListView.create: create a token record, render it through the
serializer, and append the secret key to the response under the token field
(the one other place the key is shown).  The record created by the serializer
uses the model-layer defaults, taken here as the parameters today and
horizon. -/
def createToken (st : List ApiToken) (uid : Nat) (nm : String)
    (today horizon : Nat) : List ApiToken × List (String × FieldVal) :=
  let t : ApiToken := newToken st uid nm today horizon
  (st ++ [t], serializeToken t ++ [("token", FieldVal.s t.key)])

/-- The actor of a permission check. -/
structure Actor where
  authenticated : Bool
  is_staff : Bool
  is_superuser : Bool
  deriving Repr, DecidableEq

/-- The rolemap of MeUserDetail: every write verb is checked against the view
role. -/
def meUser_rolemap : List (String × String) :=
  [("POST", "view"), ("PUT", "view"), ("PATCH", "view")]

/-- MeUserDetail.get_permission_model: the endpoint supplies no permission
model, so the per-model check is skipped for the current user editing their
own details. -/
def meUser_permission_model : Option String := none

/-- Look up the role a request method is checked against in a view's
rolemap; absent methods default to the view role. -/
def lookupRole (rm : List (String × String)) (method : String) : String :=
  match (rm.filter (fun p => p.1 == method)).head? with
  | some p => p.2
  | none => "view"

/-- Modelled from the spec: the role-permission gate (the permissions module,
not part of the API module) admits only authenticated actors; for an endpoint
that supplies a permission model it further requires the actor to be a
superuser, or to be staff and hold the mapped role permission for that model;
for an endpoint that supplies no permission model the per-model check is
skipped. -/
def roleGateAllows (a : Actor) (permModel : Option String) (role : String)
    (perms : String → String → Bool) : Bool :=
  a.authenticated &&
    (match permModel with
     | none => true
     | some m => a.is_superuser || (a.is_staff && perms m role))

/-- Whether an update request against MeUserDetail passes the permission
gate: the gate is run with the endpoint's permission model (none) and the
role mapped from the request method. -/
def meUserUpdateAllowed (a : Actor) (perms : String → String → Bool)
    (method : String) : Bool :=
  roleGateAllows a meUser_permission_model (lookupRole meUser_rolemap method)
    perms

/-! ### Helper lemmas -/

lemma mem_of_head?_eq {α : Type} {l : List α} {a : α} (h : l.head? = some a) :
    a ∈ l := by
  cases l with
  | nil => simp at h
  | cons b bs =>
    simp only [List.head?_cons, Option.some.injEq] at h
    simp [h]

lemma tokenMatches_iff {uid : Nat} {nm : String} {today : Nat} {t : ApiToken} :
    tokenMatches uid nm today t = true ↔
      t.user = uid ∧ t.name = nm ∧ t.revoked = false ∧ today ≤ t.expiry := by
  simp [tokenMatches, Bool.and_eq_true, decide_eq_true_iff,
    Bool.not_eq_true', and_assoc]

lemma findActive_some {st : List ApiToken} {uid : Nat} {nm : String}
    {today : Nat} {t : ApiToken} (h : findActive st uid nm today = some t) :
    t ∈ st ∧ tokenMatches uid nm today t = true := by
  unfold findActive at h
  have hm := mem_of_head?_eq h
  exact ⟨List.mem_of_mem_filter hm, List.of_mem_filter hm⟩

lemma findActive_eq_none {st : List ApiToken} {uid : Nat} {nm : String}
    {today : Nat} (h : ∀ t ∈ st, tokenMatches uid nm today t = false) :
    findActive st uid nm today = none := by
  unfold findActive
  have : st.filter (tokenMatches uid nm today) = [] := by
    simp only [List.filter_eq_nil_iff]
    intro t ht
    simp [h t ht]
  simp [this]

lemma applyMeta_preserves :
    ∀ (m : List ((String × String) × Bool)) (t : ApiToken) (log : List String),
      ((applyMeta t log m).1).tid = t.tid ∧
      ((applyMeta t log m).1).user = t.user ∧
      ((applyMeta t log m).1).name = t.name ∧
      ((applyMeta t log m).1).key = t.key ∧
      ((applyMeta t log m).1).created = t.created ∧
      ((applyMeta t log m).1).expiry = t.expiry ∧
      ((applyMeta t log m).1).revoked = t.revoked := by
  intro m
  induction m with
  | nil => intro t log; exact ⟨rfl, rfl, rfl, rfl, rfl, rfl, rfl⟩
  | cons p rest ih =>
    intro t log
    obtain ⟨⟨k, v⟩, ok⟩ := p
    cases ok with
    | false => simpa [applyMeta] using ih t (log ++ ["metadata merge failed: " ++ k])
    | true => simpa [applyMeta] using ih { t with metadata := setKV t.metadata k v } log

lemma applyMeta_log_mono :
    ∀ (m : List ((String × String) × Bool)) (t : ApiToken) (log : List String)
      (x : String), x ∈ log → x ∈ (applyMeta t log m).2 := by
  intro m
  induction m with
  | nil => intro t log x hx; exact hx
  | cons p rest ih =>
    intro t log x hx
    obtain ⟨⟨k, v⟩, ok⟩ := p
    cases ok with
    | false =>
      show x ∈ (applyMeta t (log ++ ["metadata merge failed: " ++ k]) rest).2
      exact ih t _ x (by simp [hx])
    | true =>
      show x ∈ (applyMeta { t with metadata := setKV t.metadata k v } log rest).2
      exact ih _ log x hx

lemma applyMeta_log_failures :
    ∀ (m : List ((String × String) × Bool)) (t : ApiToken) (log : List String)
      (k v : String), ((k, v), false) ∈ m →
      ("metadata merge failed: " ++ k) ∈ (applyMeta t log m).2 := by
  intro m
  induction m with
  | nil => intro t log k v h; simp at h
  | cons p rest ih =>
    intro t log k v h
    obtain ⟨⟨k2, v2⟩, ok⟩ := p
    rcases List.mem_cons.mp h with he | hr
    · simp only [Prod.mk.injEq] at he
      obtain ⟨⟨hk, hv⟩, ho⟩ := he
      subst hk
      subst hv
      rw [← ho]
      show ("metadata merge failed: " ++ k) ∈
        (applyMeta t (log ++ ["metadata merge failed: " ++ k]) rest).2
      exact applyMeta_log_mono rest t _ _ (by simp)
    · cases ok with
      | false =>
        show ("metadata merge failed: " ++ k) ∈
          (applyMeta t (log ++ ["metadata merge failed: " ++ k2]) rest).2
        exact ih t _ k v hr
      | true =>
        show ("metadata merge failed: " ++ k) ∈
          (applyMeta { t with metadata := setKV t.metadata k2 v2 } log rest).2
        exact ih _ log k v hr

lemma le_foldr_max {l : List Nat} {x : Nat} (h : x ∈ l) : x ≤ l.foldr max 0 := by
  induction l with
  | nil => simp at h
  | cons a t ih =>
    simp only [List.foldr_cons]
    rcases List.mem_cons.mp h with rfl | h2
    · exact le_max_left _ _
    · exact le_trans (ih h2) (le_max_right _ _)

lemma freshKey_length (st : List ApiToken) :
    (freshKey st).length =
      (st.map (fun t => t.key.length)).foldr max 0 + 1 := by
  show (List.replicate ((st.map (fun t => t.key.length)).foldr max 0 + 1)
    'k').length = (st.map (fun t => t.key.length)).foldr max 0 + 1
  simp

lemma freshKey_ne_key {st : List ApiToken} {t : ApiToken} (h : t ∈ st) :
    freshKey st ≠ t.key := by
  intro he
  have h1 : t.key.length ∈ st.map (fun t => t.key.length) :=
    List.mem_map_of_mem _ h
  have h2 := le_foldr_max h1
  have h3 := freshKey_length st
  rw [he] at h3
  omega

lemma issue_reuse {st : List ApiToken} {uid : Nat} {rawName : String}
    {today horizon : Nat} {meta : List ((String × String) × Bool)}
    {t : ApiToken}
    (h : findActive st uid (sanitize_name rawName) today = some t) :
    (issue st uid rawName today horizon meta).state =
      updateTok st t.tid (applyMeta t [] meta).1 ∧
    (issue st uid rawName today horizon meta).resp =
      ⟨t.key, t.name, t.expiry⟩ ∧
    (issue st uid rawName today horizon meta).log = (applyMeta t [] meta).2 := by
  have hp := applyMeta_preserves meta t []
  unfold issue
  rw [h]
  exact ⟨rfl, by
    show (⟨(applyMeta t [] meta).1.key, (applyMeta t [] meta).1.name,
      (applyMeta t [] meta).1.expiry⟩ : IssueResponse) = ⟨t.key, t.name, t.expiry⟩
    rw [hp.2.2.1, hp.2.2.2.1, hp.2.2.2.2.2.1], rfl⟩

lemma issue_create {st : List ApiToken} {uid : Nat} {rawName : String}
    {today horizon : Nat} {meta : List ((String × String) × Bool)}
    (h : findActive st uid (sanitize_name rawName) today = none) :
    (issue st uid rawName today horizon meta).state =
      st ++ [(applyMeta (newToken st uid (sanitize_name rawName) today horizon)
        ["created new API token"] meta).1] ∧
    (issue st uid rawName today horizon meta).resp =
      ⟨freshKey st, sanitize_name rawName, today + horizon⟩ ∧
    (issue st uid rawName today horizon meta).log =
      (applyMeta (newToken st uid (sanitize_name rawName) today horizon)
        ["created new API token"] meta).2 := by
  have hp := applyMeta_preserves meta
    (newToken st uid (sanitize_name rawName) today horizon)
    ["created new API token"]
  unfold issue
  rw [h]
  refine ⟨rfl, ?_, rfl⟩
  show (⟨(applyMeta (newToken st uid (sanitize_name rawName) today horizon)
      ["created new API token"] meta).1.key, _, _⟩ : IssueResponse) = _
  rw [hp.2.2.1, hp.2.2.2.1, hp.2.2.2.2.2.1]
  rfl

lemma tokenQueryset_subset {req : Requester} {p : Option String}
    {st : List ApiToken} {t : ApiToken} (h : t ∈ tokenQueryset req p st) :
    t ∈ st := by
  unfold tokenQueryset at h
  split at h
  · exact h
  · exact List.mem_of_mem_filter h

lemma searchLoop_eq_all (name : String) (l : List String) :
    searchLoop name l = l.all (fun entry => strHasSub name entry) := by
  induction l with
  | nil => rfl
  | cons e rest ih =>
    cases h : strHasSub name e with
    | false => simp [searchLoop, h]
    | true => simp [searchLoop, h, ih]

lemma keepOwner_iff (users : List UserRec) (search : String)
    (ia : Option Bool) (o : Owner) :
    keepOwner users (strLower search) ia o = true ↔
      ((∀ entry ∈ queryTokens search,
        strHasSub (strTrim (strLower o.name)) entry = true) ∧
       (∀ b, ia = some b → o.owner_type = OwnerType.group ∨
         (o.owner_type = OwnerType.user ∧
           ∃ u ∈ users, u.pk = o.owner_id ∧ u.is_active = b))) := by
  have hactive : ∀ b : Bool,
      (((users.filter (fun u => u.is_active == b)).map
        (fun u => u.pk)).contains o.owner_id = true ↔
        ∃ u ∈ users, u.pk = o.owner_id ∧ u.is_active = b) := by
    intro b
    simp only [List.contains_iff_exists_mem_beq, List.mem_map, List.mem_filter,
      beq_iff_eq]
    constructor
    · rintro ⟨pk2, ⟨u, ⟨hu, hb⟩, hpk⟩, he⟩
      exact ⟨u, hu, by omega, hb⟩
    · rintro ⟨u, hu, hpk, hb⟩
      exact ⟨u.pk, ⟨u, ⟨hu, hb⟩, rfl⟩, by omega⟩
  by_cases hs : strLower search = ""
  · cases ia with
    | none => simp [keepOwner, queryTokens, hs]
    | some b =>
      cases ho : o.owner_type with
      | user =>
        simp [keepOwner, queryTokens, hs, ho, hactive b]
        aesop
      | group =>
        simp [keepOwner, queryTokens, hs, ho]
  · cases ia with
    | none =>
      simp [keepOwner, queryTokens, hs, searchLoop_eq_all, List.all_eq_true]
    | some b =>
      cases ho : o.owner_type with
      | user =>
        simp [keepOwner, queryTokens, hs, ho, searchLoop_eq_all,
          List.all_eq_true, hactive b]
        intro _
        aesop
      | group =>
        simp [keepOwner, queryTokens, hs, ho, searchLoop_eq_all,
          List.all_eq_true]

/-! ### Claim theorems -/

/-- C1: token issuance is an idempotent find-or-create.  When a token for
the requesting user and the sanitized name exists with revoked cleared and
expiry at or after today, an issue call answers with that record's key, name
and expiry; the table keeps its size (no new record) and the stored keys are
unchanged (no rotation). -/
theorem C1_issue_reuse_idempotent
    (st : List ApiToken) (uid : Nat) (rawName : String) (today horizon : Nat)
    (meta : List ((String × String) × Bool)) (t : ApiToken)
    (hnd : (st.map (fun u => u.tid)).Nodup)
    (h : findActive st uid (sanitize_name rawName) today = some t) :
    (issue st uid rawName today horizon meta).resp.token = t.key ∧
    (issue st uid rawName today horizon meta).resp.name = t.name ∧
    (issue st uid rawName today horizon meta).resp.expiry = t.expiry ∧
    (issue st uid rawName today horizon meta).state.length = st.length ∧
    (issue st uid rawName today horizon meta).state.map (fun u => u.key) =
      st.map (fun u => u.key) := by
  obtain ⟨hstate, hresp, _⟩ := @issue_reuse st uid rawName today horizon meta t h
  have htmem := (findActive_some h).1
  have hp := applyMeta_preserves meta t []
  refine ⟨by rw [hresp], by rw [hresp], by rw [hresp], ?_, ?_⟩
  · rw [hstate]
    simp [updateTok]
  · rw [hstate]
    unfold updateTok
    rw [List.map_map]
    apply List.map_congr_left
    intro u hu
    simp only [Function.comp_apply]
    cases hc : u.tid == t.tid with
    | false => simp
    | true =>
      have hut : u = t :=
        List.inj_on_of_nodup_map hnd hu htmem (by simpa using hc)
      simp [hut, hp.2.2.2.1]

/-- Witness for C1 on a one-row table holding an active token named ci for
user 7. -/
theorem C1_issue_reuse_idempotent_witness :
    (issue [⟨1, 7, "ci", "key1", 0, 10, false, []⟩] 7 "ci" 5 3 []).resp.token =
      (⟨1, 7, "ci", "key1", 0, 10, false, []⟩ : ApiToken).key ∧
    (issue [⟨1, 7, "ci", "key1", 0, 10, false, []⟩] 7 "ci" 5 3 []).resp.name =
      (⟨1, 7, "ci", "key1", 0, 10, false, []⟩ : ApiToken).name ∧
    (issue [⟨1, 7, "ci", "key1", 0, 10, false, []⟩] 7 "ci" 5 3 []).resp.expiry =
      (⟨1, 7, "ci", "key1", 0, 10, false, []⟩ : ApiToken).expiry ∧
    (issue [⟨1, 7, "ci", "key1", 0, 10, false, []⟩] 7 "ci" 5 3 []).state.length =
      [(⟨1, 7, "ci", "key1", 0, 10, false, []⟩ : ApiToken)].length ∧
    (issue [⟨1, 7, "ci", "key1", 0, 10, false, []⟩] 7 "ci" 5 3 []).state.map
        (fun u => u.key) =
      [(⟨1, 7, "ci", "key1", 0, 10, false, []⟩ : ApiToken)].map (fun u => u.key) :=
  C1_issue_reuse_idempotent [⟨1, 7, "ci", "key1", 0, 10, false, []⟩] 7 "ci" 5 3
    [] ⟨1, 7, "ci", "key1", 0, 10, false, []⟩ (by decide) (by decide)

/-- C7: revocation is a soft delete.  Revoking a token keeps the table size,
leaves the primary key, secret key, name, user, creation date, expiry and
metadata of every record unchanged, and only sets the revoked flag of the
targeted record. -/
theorem C7_revoke_frame (st : List ApiToken) (tid : Nat) :
    (revoke st tid).length = st.length ∧
    (revoke st tid).map (fun t => t.tid) = st.map (fun t => t.tid) ∧
    (revoke st tid).map (fun t => t.key) = st.map (fun t => t.key) ∧
    (revoke st tid).map (fun t => t.name) = st.map (fun t => t.name) ∧
    (revoke st tid).map (fun t => t.user) = st.map (fun t => t.user) ∧
    (revoke st tid).map (fun t => t.created) = st.map (fun t => t.created) ∧
    (revoke st tid).map (fun t => t.expiry) = st.map (fun t => t.expiry) ∧
    (revoke st tid).map (fun t => t.metadata) = st.map (fun t => t.metadata) ∧
    (revoke st tid).map (fun t => t.revoked) =
      st.map (fun t => (t.tid == tid) || t.revoked) := by
  unfold revoke
  refine ⟨by simp, ?_, ?_, ?_, ?_, ?_, ?_, ?_, ?_⟩ <;>
    (rw [List.map_map]
     apply List.map_congr_left
     intro u _
     simp only [Function.comp_apply]
     cases hc : u.tid == tid <;> simp [hc])

/-- C2: revocation is terminal.  After revoking a token, no reuse lookup ever
answers with a record carrying that primary key; and when the revoked token
was the only active record for its user and name, a subsequent issue call for
that user and name finds nothing, appends a brand-new record, and answers
with a key different from the revoked one. -/
theorem C2_revocation_terminal
    (st : List ApiToken) (tok : ApiToken) (rawName : String)
    (today horizon : Nat) (meta : List ((String × String) × Bool))
    (hmem : tok ∈ st)
    (hnm : sanitize_name rawName = tok.name)
    (honly : ∀ u ∈ st, u.user = tok.user → u.name = tok.name →
      u.revoked = false → today ≤ u.expiry → u.tid = tok.tid) :
    (∀ uid2 nm2 d t2, findActive (revoke st tok.tid) uid2 nm2 d = some t2 →
      t2.tid ≠ tok.tid) ∧
    findActive (revoke st tok.tid) tok.user (sanitize_name rawName) today =
      none ∧
    (issue (revoke st tok.tid) tok.user rawName today horizon meta).state.length
      = st.length + 1 ∧
    (issue (revoke st tok.tid) tok.user rawName today horizon meta).resp.token
      ≠ tok.key := by
  have himg : ∀ t2 ∈ revoke st tok.tid, ∃ u ∈ st,
      t2 = if u.tid == tok.tid then { u with revoked := true } else u := by
    intro t2 h2
    unfold revoke at h2
    obtain ⟨u, hu, he⟩ := List.mem_map.mp h2
    exact ⟨u, hu, he.symm⟩
  have hterm : ∀ uid2 nm2 d t2,
      findActive (revoke st tok.tid) uid2 nm2 d = some t2 →
      t2.tid ≠ tok.tid := by
    intro uid2 nm2 d t2 hf
    obtain ⟨h2mem, h2match⟩ := findActive_some hf
    obtain ⟨u, hu, he⟩ := himg t2 h2mem
    have hrv := (tokenMatches_iff.mp h2match).2.2.1
    cases hc : u.tid == tok.tid with
    | true =>
      rw [hc] at he
      simp only [if_true] at he
      rw [he] at hrv
      simp at hrv
    | false =>
      rw [hc] at he
      simp only [Bool.false_eq_true, if_false] at he
      rw [he]
      simpa using hc
  have hnone : findActive (revoke st tok.tid) tok.user (sanitize_name rawName)
      today = none := by
    apply findActive_eq_none
    intro t2 h2mem
    obtain ⟨u, hu, he⟩ := himg t2 h2mem
    cases hmatch : tokenMatches tok.user (sanitize_name rawName) today t2 with
    | false => rfl
    | true =>
      exfalso
      obtain ⟨hus, hnm2, hrv, hex⟩ := tokenMatches_iff.mp hmatch
      cases hc : u.tid == tok.tid with
      | true =>
        rw [hc] at he
        simp only [if_true] at he
        rw [he] at hrv
        simp at hrv
      | false =>
        rw [hc] at he
        simp only [Bool.false_eq_true, if_false] at he
        rw [he] at hus hnm2 hrv hex
        have := honly u hu hus (hnm ▸ hnm2) hrv hex
        rw [this] at hc
        simp at hc
  obtain ⟨hstate, hresp, _⟩ :=
    @issue_create (revoke st tok.tid) tok.user rawName today horizon meta hnone
  refine ⟨hterm, hnone, ?_, ?_⟩
  · rw [hstate]
    simp [revoke]
  · rw [hresp]
    show freshKey (revoke st tok.tid) ≠ tok.key
    have hmem2 : ({ tok with revoked := true } : ApiToken) ∈ revoke st tok.tid := by
      unfold revoke
      apply List.mem_map.mpr
      exact ⟨tok, hmem, by simp⟩
    simpa using freshKey_ne_key hmem2

/-- Witness for C2 on a one-row table: revoking the ci token of user 7 makes
the reuse lookup miss, and reissuing appends a record with a different key. -/
theorem C2_revocation_terminal_witness :
    findActive (revoke [⟨1, 7, "ci", "key1", 0, 10, false, []⟩]
        (⟨1, 7, "ci", "key1", 0, 10, false, []⟩ : ApiToken).tid) 7
        (sanitize_name "ci") 5 = none ∧
    (issue (revoke [⟨1, 7, "ci", "key1", 0, 10, false, []⟩]
        (⟨1, 7, "ci", "key1", 0, 10, false, []⟩ : ApiToken).tid) 7 "ci" 5 3
        []).state.length =
      [(⟨1, 7, "ci", "key1", 0, 10, false, []⟩ : ApiToken)].length + 1 ∧
    (issue (revoke [⟨1, 7, "ci", "key1", 0, 10, false, []⟩]
        (⟨1, 7, "ci", "key1", 0, 10, false, []⟩ : ApiToken).tid) 7 "ci" 5 3
        []).resp.token ≠ "key1" := by
  have h := C2_revocation_terminal [⟨1, 7, "ci", "key1", 0, 10, false, []⟩]
    ⟨1, 7, "ci", "key1", 0, 10, false, []⟩ "ci" 5 3 [] (by decide) (by decide)
    (by decide)
  exact ⟨h.2.1, h.2.2.1, h.2.2.2⟩

/-- C6: a token whose expiry date lies before today is never answered by the
reuse lookup; when every record for the requested user and name is revoked or
expired, an issue call appends a new record; yet the expired token still
appears in the token-list queryset of its owner, which does not filter on
expiry. -/
theorem C6_expired_listable_never_reused
    (st : List ApiToken) (today : Nat) (t : ApiToken) (req : Requester)
    (p : Option String) (uid : Nat) (rawName : String) (horizon : Nat)
    (meta : List ((String × String) × Bool))
    (hmem : t ∈ st) (hexp : t.expiry < today) :
    (∀ uid2 nm2, findActive st uid2 nm2 today ≠ some t) ∧
    (t.user = req.uid → t ∈ tokenQueryset req p st) ∧
    ((∀ u ∈ st, u.user = uid → u.name = sanitize_name rawName →
        u.revoked = true ∨ u.expiry < today) →
      (issue st uid rawName today horizon meta).state.length = st.length + 1) := by
  refine ⟨?_, ?_, ?_⟩
  · intro uid2 nm2 hf
    have hm := (findActive_some hf).2
    have := (tokenMatches_iff.mp hm).2.2.2
    omega
  · intro hu
    unfold tokenQueryset
    split
    · exact hmem
    · exact List.mem_filter.mpr ⟨hmem, by simp [hu]⟩
  · intro hall
    have hnone : findActive st uid (sanitize_name rawName) today = none := by
      apply findActive_eq_none
      intro u humem
      cases hmatch : tokenMatches uid (sanitize_name rawName) today u with
      | false => rfl
      | true =>
        exfalso
        obtain ⟨hus, hnm2, hrv, hex⟩ := tokenMatches_iff.mp hmatch
        rcases hall u humem hus hnm2 with h1 | h1
        · rw [hrv] at h1
          simp at h1
        · omega
    obtain ⟨hstate, _, _⟩ :=
      @issue_create st uid rawName today horizon meta hnone
    rw [hstate]
    simp

/-- Witness for C6 on a one-row table holding a token for user 7 that
expired on day 3, queried on day 5. -/
theorem C6_expired_listable_never_reused_witness :
    findActive [⟨1, 7, "ci", "key1", 0, 3, false, []⟩] 7 "ci" 5 ≠
      some (⟨1, 7, "ci", "key1", 0, 3, false, []⟩ : ApiToken) ∧
    (⟨1, 7, "ci", "key1", 0, 3, false, []⟩ : ApiToken) ∈
      tokenQueryset ⟨7, false⟩ none [⟨1, 7, "ci", "key1", 0, 3, false, []⟩] ∧
    (issue [⟨1, 7, "ci", "key1", 0, 3, false, []⟩] 7 "ci" 5 3 []).state.length =
      [(⟨1, 7, "ci", "key1", 0, 3, false, []⟩ : ApiToken)].length + 1 := by
  have h := C6_expired_listable_never_reused
    [⟨1, 7, "ci", "key1", 0, 3, false, []⟩] 5
    ⟨1, 7, "ci", "key1", 0, 3, false, []⟩ ⟨7, false⟩ none 7 "ci" 3 []
    (by decide) (by decide)
  exact ⟨h.1 7 "ci", h.2.1 rfl, h.2.2 (by decide)⟩

/-- C9: metadata-merge failures are swallowed and logged.  The issuance
response and the table size do not depend on which metadata merges fail, the
issued key always belongs to a record of the resulting table, and every
failed merge leaves a log line. -/
theorem C9_metadata_failures_swallowed
    (st : List ApiToken) (uid : Nat) (rawName : String) (today horizon : Nat)
    (m1 m2 : List ((String × String) × Bool)) :
    (issue st uid rawName today horizon m1).resp =
      (issue st uid rawName today horizon m2).resp ∧
    (issue st uid rawName today horizon m1).state.length =
      (issue st uid rawName today horizon m2).state.length ∧
    (∃ t ∈ (issue st uid rawName today horizon m1).state,
      t.key = (issue st uid rawName today horizon m1).resp.token) ∧
    (∀ k v, ((k, v), false) ∈ m1 →
      ("metadata merge failed: " ++ k) ∈
        (issue st uid rawName today horizon m1).log) := by
  cases hf : findActive st uid (sanitize_name rawName) today with
  | some t =>
    obtain ⟨hs1, hr1, hl1⟩ := @issue_reuse st uid rawName today horizon m1 t hf
    obtain ⟨_, hr2, _⟩ := @issue_reuse st uid rawName today horizon m2 t hf
    have hp := applyMeta_preserves m1 t []
    refine ⟨by rw [hr1, hr2], ?_, ?_, ?_⟩
    · obtain ⟨hs2, _, _⟩ := @issue_reuse st uid rawName today horizon m2 t hf
      rw [hs1, hs2]
      simp [updateTok]
    · refine ⟨(applyMeta t [] m1).1, ?_, ?_⟩
      · rw [hs1]
        unfold updateTok
        apply List.mem_map.mpr
        exact ⟨t, (findActive_some hf).1, by simp⟩
      · rw [hr1]
        exact hp.2.2.2.1
    · intro k v hkv
      rw [hl1]
      exact applyMeta_log_failures m1 t [] k v hkv
  | none =>
    obtain ⟨hs1, hr1, hl1⟩ := @issue_create st uid rawName today horizon m1 hf
    obtain ⟨hs2, hr2, _⟩ := @issue_create st uid rawName today horizon m2 hf
    have hp := applyMeta_preserves m1
      (newToken st uid (sanitize_name rawName) today horizon)
      ["created new API token"]
    refine ⟨by rw [hr1, hr2], by rw [hs1, hs2]; simp, ?_, ?_⟩
    · refine ⟨(applyMeta (newToken st uid (sanitize_name rawName) today horizon)
        ["created new API token"] m1).1, ?_, ?_⟩
      · rw [hs1]
        simp
      · rw [hr1]
        exact hp.2.2.2.1
    · intro k v hkv
      rw [hl1]
      exact applyMeta_log_failures _ _ _ k v hkv

/-- Witness for C9: a failing user_agent merge does not change the response
or the table size relative to an issuance with no metadata at all, and the
failure is logged. -/
theorem C9_metadata_failures_swallowed_witness :
    (issue [] 7 "ci" 0 3 [(("user_agent", "UA"), false)]).resp =
      (issue [] 7 "ci" 0 3 []).resp ∧
    (issue [] 7 "ci" 0 3 [(("user_agent", "UA"), false)]).state.length =
      (issue [] 7 "ci" 0 3 []).state.length ∧
    ("metadata merge failed: " ++ "user_agent") ∈
      (issue [] 7 "ci" 0 3 [(("user_agent", "UA"), false)]).log := by
  have h := C9_metadata_failures_swallowed [] 7 "ci" 0 3
    [(("user_agent", "UA"), false)] []
  exact ⟨h.1, h.2.1, h.2.2.2 "user_agent" "UA" (by decide)⟩

/-- C4: the token-list queryset is scoped to the requesting actor.  A
superuser passing a truthy all_users parameter receives every token;
otherwise the queryset is exactly the requester's own tokens, and a
non-superuser can never obtain another user's token records. -/
theorem C4_token_list_scope (st : List ApiToken) (req : Requester)
    (p : Option String) :
    (req.is_superuser = true → paramTruthy p = true →
      tokenQueryset req p st = st) ∧
    (req.is_superuser = false ∨ paramTruthy p = false →
      tokenQueryset req p st = st.filter (fun t => t.user == req.uid)) ∧
    (∀ t, req.is_superuser = false →
      (t ∈ tokenQueryset req p st ↔ t ∈ st ∧ t.user = req.uid)) := by
  refine ⟨?_, ?_, ?_⟩
  · intro h1 h2
    unfold tokenQueryset
    simp [h1, h2]
  · intro h1
    unfold tokenQueryset
    rcases h1 with h1 | h1 <;> simp [h1]
  · intro t h1
    unfold tokenQueryset
    simp [h1, List.mem_filter]

/-- Witness for C4: a non-superuser requesting all_users still sees only
their own token. -/
theorem C4_token_list_scope_witness :
    tokenQueryset ⟨7, false⟩ (some "1")
        [⟨1, 7, "ci", "key1", 0, 10, false, []⟩,
         ⟨2, 8, "ci", "key2", 0, 10, false, []⟩] =
      [⟨1, 7, "ci", "key1", 0, 10, false, []⟩] ∧
    ((⟨2, 8, "ci", "key2", 0, 10, false, []⟩ : ApiToken) ∈
        tokenQueryset ⟨7, false⟩ (some "1")
          [⟨1, 7, "ci", "key1", 0, 10, false, []⟩,
           ⟨2, 8, "ci", "key2", 0, 10, false, []⟩] ↔
      (⟨2, 8, "ci", "key2", 0, 10, false, []⟩ : ApiToken) ∈
          [(⟨1, 7, "ci", "key1", 0, 10, false, []⟩ : ApiToken),
           ⟨2, 8, "ci", "key2", 0, 10, false, []⟩] ∧
        (⟨2, 8, "ci", "key2", 0, 10, false, []⟩ : ApiToken).user = 7) := by
  have h := C4_token_list_scope
    [⟨1, 7, "ci", "key1", 0, 10, false, []⟩,
     ⟨2, 8, "ci", "key2", 0, 10, false, []⟩] ⟨7, false⟩ (some "1")
  refine ⟨?_, h.2.2 ⟨2, 8, "ci", "key2", 0, 10, false, []⟩ rfl⟩
  rw [h.2.1 (Or.inl rfl)]
  decide

/-- C10: the all_users parameter is read by string truthiness.  For a
superuser any non-empty value (such as the strings false or 0) switches to
the all-users scope, an absent or empty parameter keeps the own-tokens scope,
and for a non-superuser the parameter is ignored without error. -/
theorem C10_all_users_truthiness (st : List ApiToken) (req : Requester) :
    (∀ s, req.is_superuser = true → s ≠ "" →
      tokenQueryset req (some s) st = st) ∧
    (tokenQueryset req none st = st.filter (fun t => t.user == req.uid)) ∧
    (tokenQueryset req (some "") st =
      st.filter (fun t => t.user == req.uid)) ∧
    (∀ p, req.is_superuser = false →
      tokenQueryset req p st = st.filter (fun t => t.user == req.uid)) := by
  refine ⟨?_, ?_, ?_, ?_⟩
  · intro s h1 h2
    unfold tokenQueryset
    simp [h1, paramTruthy, h2]
  · unfold tokenQueryset
    simp [paramTruthy]
  · unfold tokenQueryset
    simp [paramTruthy]
  · intro p h1
    unfold tokenQueryset
    simp [h1]

/-- Witness for C10: for a superuser the string false enables the all-users
scope while an absent parameter keeps the own scope; a non-superuser passing
the string true keeps the own scope. -/
theorem C10_all_users_truthiness_witness :
    tokenQueryset ⟨7, true⟩ (some "false")
        [⟨2, 8, "ci", "key2", 0, 10, false, []⟩] =
      [⟨2, 8, "ci", "key2", 0, 10, false, []⟩] ∧
    tokenQueryset ⟨7, true⟩ none [⟨2, 8, "ci", "key2", 0, 10, false, []⟩] =
      [(⟨2, 8, "ci", "key2", 0, 10, false, []⟩ : ApiToken)].filter
        (fun t => t.user == 7) ∧
    tokenQueryset ⟨7, false⟩ (some "true")
        [⟨2, 8, "ci", "key2", 0, 10, false, []⟩] =
      [(⟨2, 8, "ci", "key2", 0, 10, false, []⟩ : ApiToken)].filter
        (fun t => t.user == 7) := by
  have h1 := C10_all_users_truthiness
    [⟨2, 8, "ci", "key2", 0, 10, false, []⟩] ⟨7, true⟩
  have h2 := C10_all_users_truthiness
    [⟨2, 8, "ci", "key2", 0, 10, false, []⟩] ⟨7, false⟩
  exact ⟨h1.1 "false" rfl (by decide), h1.2.1, h2.2.2.2 (some "true") rfl⟩

/-- C5: owner search keeps an owner exactly when every space-separated entry
of the lowered query occurs as a substring of the owner's lowered stripped
resolved name, and, when an is_active value is supplied, user-typed owners
are additionally kept only when some user record with their id carries the
requested active flag, while group-typed owners always pass that filter. -/
theorem C5_owner_search_filter
    (users : List UserRec) (search : String) (ia : Option Bool)
    (qs : List Owner) (o : Owner) :
    o ∈ filter_queryset users search ia qs ↔
      (o ∈ qs ∧
       (∀ entry ∈ queryTokens search,
         strHasSub (strTrim (strLower o.name)) entry = true) ∧
       (∀ b, ia = some b → o.owner_type = OwnerType.group ∨
         (o.owner_type = OwnerType.user ∧
           ∃ u ∈ users, u.pk = o.owner_id ∧ u.is_active = b))) := by
  unfold filter_queryset
  rw [List.mem_filter, keepOwner_iff]

/-- Witness for C5: the query john field matches the user-typed owner named
Johnson Field under the active filter, because both entries occur in the
name and the underlying user is active. -/
theorem C5_owner_search_filter_witness :
    (⟨OwnerType.user, 3, "Johnson Field"⟩ : Owner) ∈
      filter_queryset [⟨3, true⟩] "john field" (some true)
        [⟨OwnerType.user, 3, "Johnson Field"⟩] :=
  (C5_owner_search_filter [⟨3, true⟩] "john field" (some true)
    [⟨OwnerType.user, 3, "Johnson Field"⟩]
    ⟨OwnerType.user, 3, "Johnson Field"⟩).mpr (by decide)

/-- C8: self-edit bypasses the per-model permission check.  The MeUserDetail
endpoint supplies no permission model, so any authenticated actor may update
their own record through it, whatever their staff flag and whatever their
effective role permissions. -/
theorem C8_self_edit_bypass (a : Actor) (perms : String → String → Bool)
    (method : String) (h : a.authenticated = true) :
    meUserUpdateAllowed a perms method = true := by
  unfold meUserUpdateAllowed roleGateAllows meUser_permission_model
  simp [h]

/-- Witness for C8: a non-staff, non-superuser actor with all-false
permissions may still send a PATCH to the self endpoint. -/
theorem C8_self_edit_bypass_witness :
    meUserUpdateAllowed ⟨true, false, false⟩ (fun _ _ => false) "PATCH" =
      true :=
  C8_self_edit_bypass ⟨true, false, false⟩ (fun _ _ => false) "PATCH" rfl

/-- C3: the secret key appears only in issuance responses.  Rendered
token-list and token-detail responses never carry a field holding the secret
key of a stored token, while the issuance endpoint answers with it and the
token-create endpoint appends it to its response. -/
theorem C3_key_only_in_issue_responses
    (st : List ApiToken) (req : Requester) (p : Option String) (t : ApiToken)
    (tid uid : Nat) (rawName nm2 : String) (today horizon : Nat)
    (meta : List ((String × String) × Bool))
    (hmem : t ∈ st) (hkey : ∀ u ∈ st, u.name ≠ t.key) :
    (∀ fields ∈ listTokens req p st, ∀ kv ∈ fields,
      kv.2 ≠ FieldVal.s t.key) ∧
    (∀ fields, retrieveToken req p st tid = some fields →
      ∀ kv ∈ fields, kv.2 ≠ FieldVal.s t.key) ∧
    (findActive st uid (sanitize_name rawName) today = some t →
      ("token", FieldVal.s t.key) ∈
        issueRespFields (issue st uid rawName today horizon meta).resp) ∧
    ("token", FieldVal.s (freshKey st)) ∈
      (createToken st uid nm2 today horizon).2 := by
  have hser : ∀ u ∈ st, ∀ kv ∈ serializeToken u, kv.2 ≠ FieldVal.s t.key := by
    intro u humem kv hkv
    have hne := hkey u humem
    simp only [serializeToken, List.mem_cons, List.not_mem_nil, or_false]
      at hkv
    rcases hkv with h | h | h | h | h | h <;> subst h <;> simp [hne]
  refine ⟨?_, ?_, ?_, ?_⟩
  · intro fields hf kv hkv
    obtain ⟨u, hu, he⟩ := List.mem_map.mp hf
    exact hser u (tokenQueryset_subset hu) kv (he ▸ hkv)
  · intro fields hf kv hkv
    unfold retrieveToken at hf
    obtain ⟨u, hu, he⟩ := Option.map_eq_some'.mp hf
    have humem : u ∈ st :=
      tokenQueryset_subset (List.mem_of_mem_filter (mem_of_head?_eq hu))
    exact hser u humem kv (he ▸ hkv)
  · intro hf
    obtain ⟨_, hresp, _⟩ :=
      @issue_reuse st uid rawName today horizon meta t hf
    rw [hresp]
    simp [issueRespFields]
  · simp [createToken, newToken]

/-- Witness for C3 on a one-row table: the list response for the owner holds
no field with the secret key, while the issuance response carries it. -/
theorem C3_key_only_in_issue_responses_witness :
    (∀ kv ∈ serializeToken ⟨1, 7, "ci", "key1", 0, 10, false, []⟩,
      kv.2 ≠ FieldVal.s "key1") ∧
    ("token", FieldVal.s "key1") ∈
      issueRespFields (issue [⟨1, 7, "ci", "key1", 0, 10, false, []⟩] 7 "ci"
        5 3 []).resp ∧
    ("token", FieldVal.s (freshKey [⟨1, 7, "ci", "key1", 0, 10, false, []⟩]))
      ∈ (createToken [⟨1, 7, "ci", "key1", 0, 10, false, []⟩] 7 "ci" 5 3).2 := by
  have h := C3_key_only_in_issue_responses
    [⟨1, 7, "ci", "key1", 0, 10, false, []⟩] ⟨7, false⟩ none
    ⟨1, 7, "ci", "key1", 0, 10, false, []⟩ 1 7 "ci" "ci" 5 3 []
    (by decide) (by decide)
  refine ⟨?_, h.2.2.1 (by decide), h.2.2.2⟩
  intro kv hkv
  apply h.1 (serializeToken ⟨1, 7, "ci", "key1", 0, 10, false, []⟩)
  · show serializeToken ⟨1, 7, "ci", "key1", 0, 10, false, []⟩ ∈
      listTokens ⟨7, false⟩ none [⟨1, 7, "ci", "key1", 0, 10, false, []⟩]
    decide
  · exact hkv

end UsersApi
